import Mathlib

/-!
Verification of the run-completion and metrics pipeline of the `project_run`
fitness-tracking backend (`app_run/services.py`, `app_run/views.py`,
`app_run/models.py`).

Modelling conventions of the shallow embedding:

* Python floats and `Decimal` coordinates are modelled as `ℚ`.
* Python `round(x, n)` is round-half-to-even at `n` decimal digits,
  modelled by `pyRound`; Python `int(x)` truncates toward zero,
  modelled by `pyInt`.
* `geopy.distance.geodesic` is an external library primitive; every
  definition is parameterised over a kilometre-valued distance function
  `geo : Point → Point → ℚ` (`.meters` of the same call is `1000 * geo`).
* A Django queryset without `order_by` is modelled as the list of rows in
  insertion order; `order_by` is modelled by a stable-enough insertion
  sort on the relevant key (only the key order is observable in the code
  under study).
* The database is modelled by `State` (runs, positions, challenges);
  `Run.run_time_seconds` is an `IntegerField` (`models.py`), so saving a
  run truncates that field to an integer, which the embedding represents
  by storing `ℤ` in the persisted record while the in-memory/response
  value stays `ℚ`.
-/

/-- Python `round` at 0 decimals: round half to even (banker's rounding). -/
def roundHalfEven (q : ℚ) : ℤ :=
  let f : ℤ := ⌊q⌋
  let r : ℚ := q - f
  if r < 1/2 then f
  else if 1/2 < r then f + 1
  else if f % 2 = 0 then f else f + 1

/-- Python `round(q, n)` on exact rationals. -/
def pyRound (q : ℚ) (n : ℕ) : ℚ :=
  (roundHalfEven (q * 10 ^ n) : ℚ) / 10 ^ n

/-- Python `int(q)`: truncation toward zero. -/
def pyInt (q : ℚ) : ℤ :=
  if q < 0 then ⌈q⌉ else ⌊q⌋

theorem roundHalfEven_intCast (z : ℤ) : roundHalfEven (z : ℚ) = z := by
  unfold roundHalfEven
  simp

theorem roundHalfEven_eq_of_lt_half (q : ℚ) (z : ℤ) (h1 : (z : ℚ) ≤ q)
    (h2 : q < (z : ℚ) + 1/2) : roundHalfEven q = z := by
  unfold roundHalfEven
  have hf : ⌊q⌋ = z := by
    rw [Int.floor_eq_iff]
    constructor
    · exact h1
    · calc q < (z : ℚ) + 1/2 := h2
        _ ≤ (z : ℚ) + 1 := by norm_num
  rw [hf]
  have : q - (z : ℚ) < 1/2 := by linarith
  simp only [this, if_pos]

theorem roundHalfEven_eq_of_half_lt (q : ℚ) (z : ℤ) (h1 : (z : ℚ) + 1/2 < q)
    (h2 : q < (z : ℚ) + 1) : roundHalfEven q = z + 1 := by
  unfold roundHalfEven
  have hf : ⌊q⌋ = z := by
    rw [Int.floor_eq_iff]
    constructor
    · linarith
    · exact_mod_cast h2
  rw [hf]
  have h3 : ¬ q - (z : ℚ) < 1/2 := by push_neg; linarith
  have h4 : 1/2 < q - (z : ℚ) := by linarith
  simp only [h3, if_neg, h4, if_pos, if_false]

theorem abs_roundHalfEven_sub_le (q : ℚ) : |(roundHalfEven q : ℚ) - q| ≤ 1/2 := by
  unfold roundHalfEven
  have h0 : ((⌊q⌋ : ℤ) : ℚ) ≤ q := Int.floor_le q
  have h1 : q < (⌊q⌋ : ℚ) + 1 := Int.lt_floor_add_one q
  by_cases hlt : q - (⌊q⌋ : ℚ) < 1/2
  · simp only [hlt, if_pos]
    rw [abs_le]
    constructor <;> linarith
  · by_cases hgt : 1/2 < q - (⌊q⌋ : ℚ)
    · simp only [hlt, if_neg, hgt, if_pos, if_false]
      rw [abs_le]
      push_cast
      constructor <;> linarith
    · by_cases heven : (⌊q⌋ : ℤ) % 2 = 0
      · simp only [hlt, hgt, heven, if_neg, if_pos, if_false]
        rw [abs_le]
        constructor <;> linarith
      · simp only [hlt, hgt, heven, if_neg, if_false]
        rw [abs_le]
        push_cast
        constructor <;> linarith

theorem pyRound_intCast (z : ℤ) (n : ℕ) : pyRound (z : ℚ) n = z := by
  unfold pyRound
  have h : ((z : ℚ) * 10 ^ n) = ((z * 10 ^ n : ℤ) : ℚ) := by push_cast; ring
  rw [h, roundHalfEven_intCast]
  push_cast
  exact mul_div_cancel_right₀ _ (by positivity)

theorem pyRound_natCast (m : ℕ) (n : ℕ) : pyRound (m : ℚ) n = m := by
  exact_mod_cast pyRound_intCast (m : ℤ) n

theorem pyRound_eval (q : ℚ) (z : ℤ) (n : ℕ) (h : q = (z : ℚ)) :
    pyRound q n = q := by
  rw [h, pyRound_intCast]

theorem pyRound_ofNat (m : ℕ) [m.AtLeastTwo] (n : ℕ) :
    pyRound (OfNat.ofNat m : ℚ) n = OfNat.ofNat m := by
  have h := pyRound_natCast m n
  simpa using h

theorem pyRound_zero (n : ℕ) : pyRound 0 n = 0 := by
  have h := pyRound_natCast 0 n
  simpa using h

theorem pyRound_one (n : ℕ) : pyRound 1 n = 1 := by
  have h := pyRound_natCast 1 n
  simpa using h

theorem abs_pyRound_sub_le (q : ℚ) (n : ℕ) : |pyRound q n - q| ≤ 1 / (2 * 10 ^ n) := by
  unfold pyRound
  have hpow : (0 : ℚ) < 10 ^ n := by positivity
  have key := abs_roundHalfEven_sub_le (q * 10 ^ n)
  have hrw : (roundHalfEven (q * 10 ^ n) : ℚ) / 10 ^ n - q
      = ((roundHalfEven (q * 10 ^ n) : ℚ) - q * 10 ^ n) / 10 ^ n := by
    rw [sub_div, mul_div_assoc, div_self (ne_of_gt hpow), mul_one]
  rw [hrw, abs_div, abs_of_pos hpow]
  rw [div_le_div_iff₀ hpow (by positivity)]
  calc |(roundHalfEven (q * 10 ^ n) : ℚ) - q * 10 ^ n| * (2 * 10 ^ n)
      ≤ (1/2) * (2 * 10 ^ n) := by
        apply mul_le_mul_of_nonneg_right key
        positivity
    _ = 1 * 10 ^ n := by ring

theorem pyInt_intCast (z : ℤ) : pyInt (z : ℚ) = z := by
  unfold pyInt
  split <;> simp

theorem pyInt_eq_floor_of_nonneg (q : ℚ) (h : 0 ≤ q) : pyInt q = ⌊q⌋ := by
  unfold pyInt
  rw [if_neg (not_lt.mpr h)]

/-- Insert into a list sorted on the `ℚ`-valued key `k`, modelling the
order produced by Django `order_by` on that key. -/
def insKey (k : α → ℚ) (a : α) : List α → List α
  | [] => [a]
  | b :: bs => if k b ≤ k a then b :: insKey k a bs else a :: b :: bs

/-- Insertion sort on the key `k` (Django `order_by(key)`). -/
def sortKey (k : α → ℚ) : List α → List α
  | [] => []
  | a :: as => insKey k a (sortKey k as)

theorem insKey_perm (k : α → ℚ) (a : α) (l : List α) :
    (insKey k a l).Perm (a :: l) := by
  induction l with
  | nil => simp [insKey]
  | cons b bs ih =>
    unfold insKey
    split
    · exact (ih.cons b).trans (List.Perm.swap a b bs)
    · exact List.Perm.refl _

theorem sortKey_perm (k : α → ℚ) (l : List α) : (sortKey k l).Perm l := by
  induction l with
  | nil => simp [sortKey]
  | cons a as ih =>
    unfold sortKey
    exact (insKey_perm k a (sortKey k as)).trans (ih.cons a)

theorem mem_sortKey (k : α → ℚ) (l : List α) (x : α) :
    x ∈ sortKey k l ↔ x ∈ l :=
  (sortKey_perm k l).mem_iff

theorem insKey_pairwise (k : α → ℚ) (a : α) (l : List α)
    (h : l.Pairwise (fun x y => k x ≤ k y)) :
    (insKey k a l).Pairwise (fun x y => k x ≤ k y) := by
  induction l with
  | nil => simp [insKey]
  | cons b bs ih =>
    unfold insKey
    rcases List.pairwise_cons.mp h with ⟨hb, hbs⟩
    split
    · rename_i hle
      refine List.pairwise_cons.mpr ⟨?_, ih hbs⟩
      intro y hy
      rcases List.mem_cons.mp ((insKey_perm k a bs).mem_iff.mp hy) with rfl | hyb
      · exact hle
      · exact hb y hyb
    · rename_i hnle
      have hab : k a ≤ k b := le_of_not_le hnle
      refine List.pairwise_cons.mpr ⟨?_, h⟩
      intro y hy
      rcases List.mem_cons.mp hy with hyb | hybs
      · subst hyb; exact hab
      · exact le_trans hab (hb y hybs)

theorem sortKey_pairwise (k : α → ℚ) (l : List α) :
    (sortKey k l).Pairwise (fun x y => k x ≤ k y) := by
  induction l with
  | nil => simp [sortKey]
  | cons a as ih =>
    exact insKey_pairwise k a (sortKey k as) ih

theorem sortKey_eq_self (k : α → ℚ) (l : List α)
    (h : l.Pairwise (fun x y => k x < k y)) : sortKey k l = l := by
  induction l with
  | nil => rfl
  | cons a as ih =>
    rcases List.pairwise_cons.mp h with ⟨ha, has⟩
    unfold sortKey
    rw [ih has]
    cases as with
    | nil => rfl
    | cons b bs =>
      unfold insKey
      rw [if_neg (not_le.mpr (ha b (List.mem_cons_self b bs)))]

theorem pairwise_key_head (k : α → ℚ) (b : α) (t : List α)
    (h : (b :: t).Pairwise (fun x y => k x ≤ k y)) :
    ∀ x ∈ b :: t, k b ≤ k x := by
  intro x hx
  rcases List.mem_cons.mp hx with rfl | hxt
  · exact le_refl _
  · exact (List.pairwise_cons.mp h).1 x hxt

theorem getLastD_mem (l : List α) (d : α) (h : l ≠ []) : l.getLastD d ∈ l := by
  induction l with
  | nil => exact absurd rfl h
  | cons a as ih =>
    cases as with
    | nil => simp [List.getLastD]
    | cons b bs =>
      rw [List.getLastD_cons]
      exact List.mem_cons_of_mem a (ih (by simp))

theorem pairwise_key_getLastD (k : α → ℚ) (d : α) :
    ∀ (l : List α), l.Pairwise (fun x y => k x ≤ k y) →
      ∀ x ∈ l, k x ≤ k (l.getLastD d) := by
  intro l
  induction l with
  | nil => intro _ x hx; cases hx
  | cons a as ih =>
    intro h x hx
    rcases List.pairwise_cons.mp h with ⟨ha, has⟩
    cases as with
    | nil =>
      rcases List.mem_cons.mp hx with rfl | hx0
      · simp [List.getLastD]
      · cases hx0
    | cons b bs =>
      rw [List.getLastD_cons]
      rcases List.mem_cons.mp hx with rfl | hxt
      · have hlast : (b :: bs).getLastD d ∈ b :: bs := getLastD_mem _ _ (by simp)
        exact ha _ hlast
      · exact ih has x hxt

/-- Minimum of a list of rationals (`0` on the empty list, never used there). -/
def listMin : List ℚ → ℚ
  | [] => 0
  | x :: xs => xs.foldl min x

/-- Maximum of a list of rationals (`0` on the empty list, never used there). -/
def listMax : List ℚ → ℚ
  | [] => 0
  | x :: xs => xs.foldl max x

theorem foldl_min_mem : ∀ (xs : List ℚ) (a : ℚ), xs.foldl min a = a ∨ xs.foldl min a ∈ xs := by
  intro xs
  induction xs with
  | nil => intro a; left; rfl
  | cons x t ih =>
    intro a
    rcases ih (min a x) with h | h
    · rw [List.foldl_cons]
      rcases min_choice a x with hm | hm
      · left; rw [h, hm]
      · right; rw [h, hm]; exact List.mem_cons_self x t
    · right
      rw [List.foldl_cons]
      exact List.mem_cons_of_mem x h

theorem foldl_min_le : ∀ (xs : List ℚ) (a : ℚ),
    xs.foldl min a ≤ a ∧ ∀ y ∈ xs, xs.foldl min a ≤ y := by
  intro xs
  induction xs with
  | nil => intro a; exact ⟨le_refl a, by intro y hy; cases hy⟩
  | cons x t ih =>
    intro a
    rcases ih (min a x) with ⟨h1, h2⟩
    rw [List.foldl_cons]
    refine ⟨le_trans h1 (min_le_left a x), ?_⟩
    intro y hy
    rcases List.mem_cons.mp hy with rfl | hyt
    · exact le_trans h1 (min_le_right a y)
    · exact h2 y hyt

theorem foldl_max_mem : ∀ (xs : List ℚ) (a : ℚ), xs.foldl max a = a ∨ xs.foldl max a ∈ xs := by
  intro xs
  induction xs with
  | nil => intro a; left; rfl
  | cons x t ih =>
    intro a
    rcases ih (max a x) with h | h
    · rw [List.foldl_cons]
      rcases max_choice a x with hm | hm
      · left; rw [h, hm]
      · right; rw [h, hm]; exact List.mem_cons_self x t
    · right
      rw [List.foldl_cons]
      exact List.mem_cons_of_mem x h

theorem foldl_max_le : ∀ (xs : List ℚ) (a : ℚ),
    a ≤ xs.foldl max a ∧ ∀ y ∈ xs, y ≤ xs.foldl max a := by
  intro xs
  induction xs with
  | nil => intro a; exact ⟨le_refl a, by intro y hy; cases hy⟩
  | cons x t ih =>
    intro a
    rcases ih (max a x) with ⟨h1, h2⟩
    rw [List.foldl_cons]
    refine ⟨le_trans (le_max_left a x) h1, ?_⟩
    intro y hy
    rcases List.mem_cons.mp hy with rfl | hyt
    · exact le_trans (le_max_right a y) h1
    · exact h2 y hyt

theorem listMin_mem (l : List ℚ) (h : l ≠ []) : listMin l ∈ l := by
  cases l with
  | nil => exact absurd rfl h
  | cons x xs =>
    show xs.foldl min x ∈ x :: xs
    rcases foldl_min_mem xs x with h1 | h1
    · rw [h1]; exact List.mem_cons_self x xs
    · exact List.mem_cons_of_mem x h1

theorem listMin_le (l : List ℚ) : ∀ y ∈ l, listMin l ≤ y := by
  cases l with
  | nil => intro y hy; cases hy
  | cons x xs =>
    intro y hy
    unfold listMin
    rcases List.mem_cons.mp hy with rfl | hyt
    · exact (foldl_min_le xs y).1
    · exact (foldl_min_le xs x).2 y hyt

theorem listMax_mem (l : List ℚ) (h : l ≠ []) : listMax l ∈ l := by
  cases l with
  | nil => exact absurd rfl h
  | cons x xs =>
    show xs.foldl max x ∈ x :: xs
    rcases foldl_max_mem xs x with h1 | h1
    · rw [h1]; exact List.mem_cons_self x xs
    · exact List.mem_cons_of_mem x h1

theorem le_listMax (l : List ℚ) : ∀ y ∈ l, y ≤ listMax l := by
  cases l with
  | nil => intro y hy; cases hy
  | cons x xs =>
    intro y hy
    unfold listMax
    rcases List.mem_cons.mp hy with rfl | hyt
    · exact (foldl_max_le xs y).1
    · exact (foldl_max_le xs x).2 y hyt

/-- Sum of a list of rationals (Django `Sum`/`Avg` numerators). -/
def listSum : List ℚ → ℚ
  | [] => 0
  | x :: xs => x + listSum xs

/-- A (latitude, longitude) pair in decimal degrees (`DecimalField` values). -/
structure Point where
  lat : ℚ
  lon : ℚ
deriving DecidableEq, Repr, Inhabited

/-- Row of the `Position` model (`app_run/models.py`): GPS sample of a run.
`dateTime` is the `date_time` timestamp in (possibly fractional) seconds. -/
structure Position where
  id : ℕ
  runId : ℕ
  point : Point
  dateTime : ℚ
  speed : ℚ
  distance : ℚ
deriving DecidableEq, Repr, Inhabited

/-- `Run.Status` text choices (`app_run/models.py`). -/
inductive RunStatus where
  | init
  | in_progress
  | finished
deriving DecidableEq, Repr, Inhabited

/-- Row of the `Run` model. `run_time_seconds` is an `IntegerField`, so the
persisted value is an integer; `distance` and `speed` are `FloatField`s. -/
structure Run where
  id : ℕ
  athlete : ℕ
  status : RunStatus
  distance : ℚ
  run_time_seconds : ℤ
  speed : ℚ
deriving DecidableEq, Repr, Inhabited

/-- Row of the `Challenge` model: an (athlete, badge-name) fact. -/
structure Challenge where
  full_name : String
  athlete : ℕ
deriving DecidableEq, Repr, Inhabited

/-- Row of the `CollectibleItem` model; `users` is the many-to-many collector
set (kept as a duplicate-free list by the set-semantics of `add`). -/
structure CollectibleItem where
  uid : ℕ
  point : Point
  users : List ℕ
deriving DecidableEq, Repr, Inhabited

/-- The database tables touched by the run state-transition endpoints, each
as its list of rows in insertion order. -/
structure State where
  runs : List Run
  positions : List Position
  challenges : List Challenge
deriving DecidableEq, Repr, Inhabited

/-- `geodesic(a, b).kilometers` over consecutive positions of a list:
the pairwise-segment summation loop shared by `calculate_run_distance`,
`calculate_average_speed` and the distance loop of `StopRunAPIView.post`. -/
def chainSumP (geo : Point → Point → ℚ) : List Position → ℚ
  | p :: q :: rest => geo p.point q.point + chainSumP geo (q :: rest)
  | _ => 0

/-- `CollectibleItem.users.add(athlete)`: Django M2M `add` is a set
insertion (no duplicate row is created for an existing collector). -/
def usersAdd (item : CollectibleItem) (athlete : ℕ) : CollectibleItem :=
  if athlete ∈ item.users then item
  else { item with users := item.users ++ [athlete] }

/-- `services.check_and_collect_items(position, athlete)`: for every catalog
item, if `geodesic(runner_point, item_point).meters <= 100` the athlete is
added to the item's collector set. `runner` is the position's point. -/
def check_and_collect_items (geo : Point → Point → ℚ) (items : List CollectibleItem)
    (runner : Point) (athlete : ℕ) : List CollectibleItem :=
  items.map fun item =>
    if 1000 * geo runner item.point ≤ 100 then usersAdd item athlete else item

/-- `services.calculate_run_distance(positions_queryset)`: order by `id`,
sum geodesic kilometres between neighbours, `round(_, 3)`. -/
def calculate_run_distance (geo : Point → Point → ℚ) (ps : List Position) : ℚ :=
  pyRound (chainSumP geo (sortKey (fun p => (p.id : ℚ)) ps)) 3

/-- `services.calculate_run_time_seconds(positions_queryset)`:
`int((max(date_time) - min(date_time)).total_seconds())`, `0` with no rows. -/
def calculate_run_time_seconds (ps : List Position) : ℤ :=
  if ps.isEmpty then 0
  else pyInt (listMax (ps.map (fun p => p.dateTime)) - listMin (ps.map (fun p => p.dateTime)))

/-- `Position.objects.filter(run=position.run, id__lt=position.id)
.order_by('-id').first()`: the predecessor lookup shared by
`calculate_position_distance` and `calculate_position_speed`. -/
def previous_position (db : List Position) (p : Position) : Option Position :=
  (sortKey (fun q => -((q.id : ℚ))) (db.filter fun q => decide (q.runId = p.runId ∧ q.id < p.id))).head?

/-- `services.calculate_position_distance(position)`: cumulative distance of
a newly created position, from its predecessor in the database `db`. -/
def calculate_position_distance (geo : Point → Point → ℚ) (db : List Position)
    (p : Position) : Position :=
  match previous_position db p with
  | some prev =>
    { p with distance := pyRound (prev.distance + geo prev.point p.point) 2 }
  | none => { p with distance := 0 }

/-- `services.calculate_position_speed(position)`: instantaneous speed in
m/s of a newly created position, `0.0` when there is no predecessor or the
time delta is not positive. -/
def calculate_position_speed (geo : Point → Point → ℚ) (db : List Position)
    (p : Position) : Position :=
  match previous_position db p with
  | some prev =>
    let segment_distance_km := geo prev.point p.point
    let time_diff := p.dateTime - prev.dateTime
    if 0 < time_diff then
      { p with speed := pyRound (segment_distance_km * 1000 / time_diff) 2 }
    else
      { p with speed := 0 }
  | none => { p with speed := 0 }

/-- `services.calculate_average_speed(positions_queryset)`: m/s over the
whole run, ordering by `date_time`; `0.0` with at most one position or a
non-positive time range. (Dead code for the stop endpoint: `views.py` does
not import it.) -/
def calculate_average_speed (geo : Point → Point → ℚ) (ps : List Position) : ℚ :=
  let sorted := sortKey (fun p => p.dateTime) ps
  if sorted.length ≤ 1 then 0
  else
    let total_distance_km := chainSumP geo sorted
    let total_time_seconds :=
      (sorted.getLastD default).dateTime - (sorted.headD default).dateTime
    if 0 < total_time_seconds then
      pyRound (total_distance_km * 1000 / total_time_seconds) 2
    else 0

/-- Badge granted by `ChallengeAssigner._assign_10_runs`. -/
def badge_10_runs : String := "Сделай 10 Забегов!"

/-- Badge granted by `ChallengeAssigner._assign_50_km`. -/
def badge_50_km : String := "Пробеги 50 километров!"

/-- Badge granted by `ChallengeAssigner._assign_2km_10min`. -/
def badge_2km_10min : String := "2 километра за 10 минут!"

/-- `Challenge.objects.get_or_create(full_name=.., athlete=..)`:
append a row only when no row with that (name, athlete) pair exists. -/
def get_or_create (challenges : List Challenge) (full_name : String)
    (athlete : ℕ) : List Challenge :=
  if challenges.any (fun c => decide (c.full_name = full_name ∧ c.athlete = athlete))
  then challenges
  else challenges ++ [{ full_name := full_name, athlete := athlete }]

/-- `services.ChallengeAssigner.assign()`: the three milestone rules run in
source order (`_assign_10_runs`, `_assign_50_km`, `_assign_2km_10min`). -/
def challengeAssign (challenges : List Challenge) (athlete : ℕ)
    (finished_runs_count : ℕ) (total_km total_distance run_time_seconds : ℚ) :
    List Challenge :=
  let c1 := if 10 ≤ finished_runs_count
    then get_or_create challenges badge_10_runs athlete else challenges
  let c2 := if 50 ≤ total_km
    then get_or_create c1 badge_50_km athlete else c1
  if 2 ≤ total_distance ∧ 0 < run_time_seconds ∧ run_time_seconds ≤ 600
  then get_or_create c2 badge_2km_10min athlete else c2

/-- Error responses of `StartRunAPIView.post` / `StopRunAPIView.post`:
`not_found` is the 404 of `get_object_or_404`; the others are the 400
responses with messages "Забег уже начат" (`already_started`),
"Забег уже был завершен"/"Забег уже завершен" (`already_finished`),
"Нельзя завершить не начатый забег" (`never_started`). -/
inductive RunError where
  | not_found
  | already_started
  | already_finished
  | never_started
deriving DecidableEq, Repr

/-- Payload of the 200 response of `StopRunAPIView.post` (the in-memory
attribute values, before any database field coercion). -/
structure StopResponse where
  distance : ℚ
  run_time_seconds : ℚ
  average_speed : ℚ
deriving DecidableEq, Repr

/-- `get_object_or_404(Run, id=run_id)`. -/
def findRun (s : State) (run_id : ℕ) : Option Run :=
  s.runs.find? fun r => decide (r.id = run_id)

/-- `run.save()`: write the in-memory run object back to its row(s). -/
def saveRun (s : State) (r : Run) : State :=
  { s with runs := s.runs.map fun x => if x.id = r.id then r else x }

/-- `Position.objects.filter(run=run_id)` in insertion order. -/
def positionsOf (s : State) (run_id : ℕ) : List Position :=
  s.positions.filter fun p => decide (p.runId = run_id)

/-- `Run.objects.filter(athlete=.., status=FINISHED).count()`. -/
def finished_runs_count (s : State) (athlete : ℕ) : ℕ :=
  (s.runs.filter fun r => decide (r.athlete = athlete ∧ r.status = RunStatus.finished)).length

/-- `Run.objects.filter(athlete=.., status=FINISHED)
.aggregate(total_distance=Sum('distance'))['total_distance'] or 0`. -/
def total_km (s : State) (athlete : ℕ) : ℚ :=
  listSum ((s.runs.filter fun r => decide (r.athlete = athlete ∧ r.status = RunStatus.finished)).map fun r => r.distance)

/-- The `order_by('date_time')` elapsed-time computation of
`StopRunAPIView.post`: `sorted[n-1].date_time - sorted[0].date_time`. -/
def timeRangeView (ps : List Position) : ℚ :=
  let sorted := sortKey (fun p => p.dateTime) ps
  (sorted.getLastD default).dateTime - (sorted.headD default).dateTime

/-- `positions_qs.aggregate(Avg('speed'))['speed__avg']`. -/
def speedAvg (ps : List Position) : ℚ :=
  listSum (ps.map fun p => p.speed) / (ps.length : ℚ)

/-- The metrics block of `StopRunAPIView.post`: the in-memory values of
`run.distance`, `run.run_time_seconds`, `run.speed` after the
`if Position.objects.filter(run=run_id).exists():` block (which leaves all
three untouched when the run has no positions). -/
def stopMetrics (geo : Point → Point → ℚ) (run : Run) (ps : List Position) :
    ℚ × ℚ × ℚ :=
  if ps.isEmpty then (run.distance, (run.run_time_seconds : ℚ), run.speed)
  else (chainSumP geo ps, timeRangeView ps, pyRound (speedAvg ps) 2)

/-- `StartRunAPIView.post(run_id)`: on error the database is untouched and
the pair carries the unchanged state. -/
def start_run (s : State) (run_id : ℕ) : State × Option RunError :=
  match findRun s run_id with
  | none => (s, some RunError.not_found)
  | some run =>
    if run.status = RunStatus.in_progress then (s, some RunError.already_started)
    else if run.status = RunStatus.finished then (s, some RunError.already_finished)
    else (saveRun s { run with status := RunStatus.in_progress }, none)

/-- `StopRunAPIView.post(run_id)`: status checks, metrics block, save
(truncating `run_time_seconds` to the `IntegerField`), challenge
assignment from the post-save aggregates, and the echo response built from
the in-memory attribute values. -/
def stop_run (geo : Point → Point → ℚ) (s : State) (run_id : ℕ) :
    State × Except RunError StopResponse :=
  match findRun s run_id with
  | none => (s, Except.error RunError.not_found)
  | some run =>
    if run.status = RunStatus.finished then (s, Except.error RunError.already_finished)
    else if run.status = RunStatus.init then (s, Except.error RunError.never_started)
    else
      let ps := positionsOf s run_id
      let m := stopMetrics geo run ps
      let run1 : Run := { run with
        status := RunStatus.finished
        distance := m.1
        run_time_seconds := pyInt m.2.1
        speed := m.2.2 }
      let s1 := saveRun s run1
      let s2 := { s1 with
        challenges := challengeAssign s1.challenges run.athlete
          (finished_runs_count s1 run.athlete) (total_km s1 run.athlete) m.1 m.2.1 }
      (s2, Except.ok { distance := m.1, run_time_seconds := m.2.1, average_speed := m.2.2 })

theorem findRun_id (s : State) (run_id : ℕ) (run : Run)
    (h : findRun s run_id = some run) : run.id = run_id := by
  have := List.find?_some h
  simpa using this

theorem findRun_mem (s : State) (run_id : ℕ) (run : Run)
    (h : findRun s run_id = some run) : run ∈ s.runs :=
  List.mem_of_find?_eq_some h

theorem find?_map_update (rid : ℕ) (r : Run) (hid : r.id = rid) :
    ∀ (l : List Run), (∃ x ∈ l, x.id = rid) →
      List.find? (fun x => decide (x.id = rid))
        (l.map fun x => if x.id = rid then r else x) = some r := by
  intro l
  induction l with
  | nil => rintro ⟨x, hx, _⟩; cases hx
  | cons a t ih =>
    rintro ⟨x, hx, hxid⟩
    by_cases ha : a.id = rid
    · simp only [List.map_cons, if_pos ha]
      rw [List.find?_cons_of_pos]
      simp [hid]
    · simp only [List.map_cons, if_neg ha]
      rw [List.find?_cons_of_neg _ (by simp [ha])]
      apply ih
      rcases List.mem_cons.mp hx with rfl | hxt
      · exact absurd hxid ha
      · exact ⟨x, hxt, hxid⟩

theorem findRun_saveRun (s : State) (r : Run) (rid : ℕ) (hid : r.id = rid)
    (hex : ∃ x ∈ s.runs, x.id = rid) : findRun (saveRun s r) rid = some r := by
  unfold findRun saveRun
  simp only
  have hfun : (fun x : Run => if x.id = r.id then r else x)
      = (fun x : Run => if x.id = rid then r else x) := by
    funext x; rw [hid]
  rw [hfun]
  exact find?_map_update rid r hid s.runs hex

theorem challenge_ext (c : Challenge) (n : String) (a : ℕ) :
    c = { full_name := n, athlete := a } ↔ c.full_name = n ∧ c.athlete = a := by
  constructor
  · rintro rfl; exact ⟨rfl, rfl⟩
  · rintro ⟨h1, h2⟩; cases c; simp_all

theorem get_or_create_eq (l : List Challenge) (n : String) (a : ℕ) :
    get_or_create l n a =
      if ({ full_name := n, athlete := a } : Challenge) ∈ l then l
      else l ++ [{ full_name := n, athlete := a }] := by
  unfold get_or_create
  by_cases hmem : ({ full_name := n, athlete := a } : Challenge) ∈ l
  · rw [if_pos, if_pos hmem]
    rw [List.any_eq_true]
    exact ⟨_, hmem, by simp⟩
  · rw [if_neg, if_neg hmem]
    rw [List.any_eq_true]
    rintro ⟨c, hc, hprop⟩
    rw [decide_eq_true_eq] at hprop
    exact hmem ((challenge_ext c n a).mpr hprop ▸ hc)

theorem mem_get_or_create (l : List Challenge) (n : String) (a : ℕ) (c : Challenge) :
    c ∈ get_or_create l n a ↔ c ∈ l ∨ c = { full_name := n, athlete := a } := by
  rw [get_or_create_eq]
  split
  · rename_i hmem
    constructor
    · exact Or.inl
    · rintro (h | rfl)
      · exact h
      · exact hmem
  · simp

theorem get_or_create_append (l : List Challenge) (n : String) (a : ℕ) :
    ∃ t, get_or_create l n a = l ++ t := by
  rw [get_or_create_eq]
  split
  · exact ⟨[], by simp⟩
  · exact ⟨_, rfl⟩

theorem count_get_or_create_of_mem (l : List Challenge) (n : String) (a : ℕ)
    (c : Challenge) (hc : c ∈ l) :
    (get_or_create l n a).count c = l.count c := by
  rw [get_or_create_eq]
  split
  · rfl
  · rename_i hmem
    rw [List.count_append]
    have : ¬ c = ({ full_name := n, athlete := a } : Challenge) := by
      rintro rfl; exact hmem hc
    simp [List.count_singleton, this]

theorem count_get_or_create_of_not_mem (l : List Challenge) (n : String) (a : ℕ)
    (c : Challenge) (hc : c ∉ l) :
    (get_or_create l n a).count c ≤ 1 := by
  have hzero : l.count c = 0 := List.count_eq_zero.mpr hc
  rw [get_or_create_eq]
  split
  · rw [hzero]; omega
  · rw [List.count_append, hzero]
    have := List.count_le_length c [({ full_name := n, athlete := a } : Challenge)]
    simpa using this

theorem mem_challengeAssign (l : List Challenge) (a : ℕ) (fc : ℕ)
    (tkm td rt : ℚ) (c : Challenge) :
    c ∈ challengeAssign l a fc tkm td rt ↔
      c ∈ l
      ∨ (c = { full_name := badge_10_runs, athlete := a } ∧ 10 ≤ fc)
      ∨ (c = { full_name := badge_50_km, athlete := a } ∧ 50 ≤ tkm)
      ∨ (c = { full_name := badge_2km_10min, athlete := a }
          ∧ 2 ≤ td ∧ 0 < rt ∧ rt ≤ 600) := by
  unfold challengeAssign
  split <;> split <;> split <;>
    · simp only [mem_get_or_create]
      tauto

theorem ite_get_or_create_append (b : Prop) [Decidable b] (l : List Challenge)
    (n : String) (a : ℕ) : ∃ t, (if b then get_or_create l n a else l) = l ++ t := by
  split
  · exact get_or_create_append l n a
  · exact ⟨[], by simp⟩

theorem append_of_append_of_append {α : Type} {l m n : List α}
    (h1 : ∃ t, m = l ++ t) (h2 : ∃ t, n = m ++ t) : ∃ t, n = l ++ t := by
  obtain ⟨t1, rfl⟩ := h1
  obtain ⟨t2, rfl⟩ := h2
  exact ⟨t1 ++ t2, by simp⟩

theorem challengeAssign_append (l : List Challenge) (a : ℕ) (fc : ℕ)
    (tkm td rt : ℚ) : ∃ t, challengeAssign l a fc tkm td rt = l ++ t := by
  unfold challengeAssign
  apply append_of_append_of_append
    (append_of_append_of_append
      (ite_get_or_create_append (10 ≤ fc) l badge_10_runs a)
      (ite_get_or_create_append (50 ≤ tkm) _ badge_50_km a))
  exact ite_get_or_create_append _ _ badge_2km_10min a

theorem count_ite_get_or_create_of_mem (b : Prop) [Decidable b]
    (l : List Challenge) (n : String) (a : ℕ) (c : Challenge) (hc : c ∈ l) :
    (if b then get_or_create l n a else l).count c = l.count c
      ∧ c ∈ (if b then get_or_create l n a else l) := by
  split
  · exact ⟨count_get_or_create_of_mem l n a c hc,
      (mem_get_or_create l n a c).mpr (Or.inl hc)⟩
  · exact ⟨rfl, hc⟩

theorem count_ite_get_or_create_le_one (b : Prop) [Decidable b]
    (l : List Challenge) (n : String) (a : ℕ) (c : Challenge)
    (h : l.count c ≤ 1) :
    (if b then get_or_create l n a else l).count c ≤ 1 := by
  split
  · by_cases hc : c ∈ l
    · rw [count_get_or_create_of_mem l n a c hc]; exact h
    · exact count_get_or_create_of_not_mem l n a c hc
  · exact h

theorem count_challengeAssign_of_mem (l : List Challenge) (a : ℕ) (fc : ℕ)
    (tkm td rt : ℚ) (c : Challenge) (hc : c ∈ l) :
    (challengeAssign l a fc tkm td rt).count c = l.count c := by
  unfold challengeAssign
  obtain ⟨e1, m1⟩ := count_ite_get_or_create_of_mem (10 ≤ fc) l badge_10_runs a c hc
  obtain ⟨e2, m2⟩ := count_ite_get_or_create_of_mem (50 ≤ tkm) _ badge_50_km a c m1
  obtain ⟨e3, _⟩ := count_ite_get_or_create_of_mem
    (2 ≤ td ∧ 0 < rt ∧ rt ≤ 600) _ badge_2km_10min a c m2
  rw [e3, e2, e1]

theorem count_challengeAssign_le_one (l : List Challenge) (a : ℕ) (fc : ℕ)
    (tkm td rt : ℚ) (c : Challenge) (hc : c ∉ l) :
    (challengeAssign l a fc tkm td rt).count c ≤ 1 := by
  unfold challengeAssign
  have h0 : l.count c = 0 := List.count_eq_zero.mpr hc
  apply count_ite_get_or_create_le_one
  apply count_ite_get_or_create_le_one
  apply count_ite_get_or_create_le_one
  omega

theorem start_run_init_eq (s : State) (run_id : ℕ) (run : Run)
    (hfind : findRun s run_id = some run) (hst : run.status = RunStatus.init) :
    start_run s run_id = (saveRun s { run with status := RunStatus.in_progress }, none) := by
  unfold start_run
  simp only [hfind, hst]
  simp

theorem start_run_in_progress_eq (s : State) (run_id : ℕ) (run : Run)
    (hfind : findRun s run_id = some run) (hst : run.status = RunStatus.in_progress) :
    start_run s run_id = (s, some RunError.already_started) := by
  unfold start_run
  simp only [hfind, hst]
  simp

theorem start_run_finished_eq (s : State) (run_id : ℕ) (run : Run)
    (hfind : findRun s run_id = some run) (hst : run.status = RunStatus.finished) :
    start_run s run_id = (s, some RunError.already_finished) := by
  unfold start_run
  simp only [hfind, hst]
  simp

theorem stop_run_finished_eq (geo : Point → Point → ℚ) (s : State) (run_id : ℕ)
    (run : Run) (hfind : findRun s run_id = some run)
    (hst : run.status = RunStatus.finished) :
    stop_run geo s run_id = (s, Except.error RunError.already_finished) := by
  unfold stop_run
  simp only [hfind, hst]
  simp

theorem stop_run_init_eq (geo : Point → Point → ℚ) (s : State) (run_id : ℕ)
    (run : Run) (hfind : findRun s run_id = some run)
    (hst : run.status = RunStatus.init) :
    stop_run geo s run_id = (s, Except.error RunError.never_started) := by
  unfold stop_run
  simp only [hfind, hst]
  simp

/-- The run object written by a successful stop, given the in-memory
metric triple `m`. -/
def stoppedRun (run : Run) (m : ℚ × ℚ × ℚ) : Run :=
  { run with
    status := RunStatus.finished
    distance := m.1
    run_time_seconds := pyInt m.2.1
    speed := m.2.2 }

theorem stop_run_in_progress_eq (geo : Point → Point → ℚ) (s : State)
    (run_id : ℕ) (run : Run) (hfind : findRun s run_id = some run)
    (hst : run.status = RunStatus.in_progress) :
    stop_run geo s run_id =
      (let m := stopMetrics geo run (positionsOf s run_id)
       let s1 := saveRun s (stoppedRun run m)
       ({ s1 with challenges := challengeAssign s1.challenges run.athlete (finished_runs_count s1 run.athlete) (total_km s1 run.athlete) m.1 m.2.1 },
        Except.ok { distance := m.1, run_time_seconds := m.2.1, average_speed := m.2.2 })) := by
  unfold stop_run stoppedRun
  simp only [hfind, hst]
  simp

/-- Claim C3: for every run found by id, `start` succeeds exactly from
`init` (flipping only the status, leaving `distance`, `run_time_seconds`
and `speed` untouched), erroring `already_started` from `in_progress` and
`already_finished` from `finished`; `stop` errors `already_finished` from
`finished` and `never_started` from `init`; every error leaves the state
(runs, metrics and challenge grants) unchanged; and after a legal stop a
second stop fails with `already_finished` without touching the state, so
nothing is recomputed or re-granted. -/
theorem run_state_machine_spec (geo : Point → Point → ℚ) (s : State)
    (run_id : ℕ) (run : Run) (hfind : findRun s run_id = some run) :
    (run.status = RunStatus.init →
       start_run s run_id = (saveRun s { run with status := RunStatus.in_progress }, none)
       ∧ findRun (saveRun s { run with status := RunStatus.in_progress }) run_id
           = some { run with status := RunStatus.in_progress }
       ∧ ({ run with status := RunStatus.in_progress }).distance = run.distance
       ∧ ({ run with status := RunStatus.in_progress }).run_time_seconds = run.run_time_seconds
       ∧ ({ run with status := RunStatus.in_progress }).speed = run.speed)
    ∧ (run.status = RunStatus.in_progress →
        start_run s run_id = (s, some RunError.already_started))
    ∧ (run.status = RunStatus.finished →
        start_run s run_id = (s, some RunError.already_finished))
    ∧ (run.status = RunStatus.finished →
        stop_run geo s run_id = (s, Except.error RunError.already_finished))
    ∧ (run.status = RunStatus.init →
        stop_run geo s run_id = (s, Except.error RunError.never_started))
    ∧ (run.status = RunStatus.in_progress →
        ∃ s2 resp, stop_run geo s run_id = (s2, Except.ok resp)
          ∧ stop_run geo s2 run_id = (s2, Except.error RunError.already_finished)) := by
  have hid := findRun_id s run_id run hfind
  have hmem := findRun_mem s run_id run hfind
  refine ⟨?_, ?_, ?_, ?_, ?_, ?_⟩
  · intro hst
    refine ⟨start_run_init_eq s run_id run hfind hst, ?_, rfl, rfl, rfl⟩
    exact findRun_saveRun s _ run_id hid ⟨run, hmem, hid⟩
  · exact fun hst => start_run_in_progress_eq s run_id run hfind hst
  · exact fun hst => start_run_finished_eq s run_id run hfind hst
  · exact fun hst => stop_run_finished_eq geo s run_id run hfind hst
  · exact fun hst => stop_run_init_eq geo s run_id run hfind hst
  · intro hst
    have heq := stop_run_in_progress_eq geo s run_id run hfind hst
    refine ⟨_, _, heq, ?_⟩
    apply stop_run_finished_eq geo _ run_id
      (stoppedRun run (stopMetrics geo run (positionsOf s run_id)))
    · show findRun (saveRun s _) run_id = _
      exact findRun_saveRun s _ run_id hid ⟨run, hmem, hid⟩
    · rfl

/-- Concrete three-run state exercising every branch of
`run_state_machine_spec`. -/
def exStateC3 : State :=
  { runs :=
      [ { id := 1, athlete := 7, status := RunStatus.init,
          distance := 0, run_time_seconds := 0, speed := 0 },
        { id := 2, athlete := 7, status := RunStatus.in_progress,
          distance := 0, run_time_seconds := 0, speed := 0 },
        { id := 3, athlete := 7, status := RunStatus.finished,
          distance := 5, run_time_seconds := 60, speed := 2 } ],
    positions := [],
    challenges := [] }

theorem run_state_machine_spec_witness :
    ∃ run : Run, findRun exStateC3 1 = some run ∧ run.status = RunStatus.init
      ∧ start_run exStateC3 1
          = (saveRun exStateC3 { run with status := RunStatus.in_progress }, none)
      ∧ stop_run (fun _ _ => 0) exStateC3 1
          = (exStateC3, Except.error RunError.never_started) := by
  have hfind : findRun exStateC3 1
      = some { id := 1, athlete := 7, status := RunStatus.init,
               distance := 0, run_time_seconds := 0, speed := 0 } := rfl
  have h := run_state_machine_spec (fun _ _ => 0) exStateC3 1 _ hfind
  exact ⟨_, hfind, rfl, (h.1 rfl).1, h.2.2.2.2.1 rfl⟩

theorem usersAdd_mem (item : CollectibleItem) (athlete a : ℕ) :
    a ∈ (usersAdd item athlete).users ↔ a = athlete ∨ a ∈ item.users := by
  unfold usersAdd
  split
  · rename_i hmem
    constructor
    · exact Or.inr
    · rintro (rfl | h)
      · exact hmem
      · exact h
  · simp [or_comm]

theorem usersAdd_of_mem (item : CollectibleItem) (athlete : ℕ)
    (h : athlete ∈ item.users) : usersAdd item athlete = item := by
  unfold usersAdd
  rw [if_pos h]

/-- Claim C7: after `check_and_collect_items` runs for a new position, each
catalog item within 100 geodesic metres (inclusive) has the athlete in its
collector set, which otherwise keeps exactly its previous members; an item
farther than 100 metres is unchanged; and collecting an already-collected
item is a no-op, so the collector set size never changes in that case
(idempotent set-add). -/
theorem collect_items_spec (geo : Point → Point → ℚ) (items : List CollectibleItem)
    (runner : Point) (athlete : ℕ) :
    List.Forall₂ (fun item item2 =>
        (1000 * geo runner item.point ≤ 100 →
           (athlete ∈ item2.users
             ∧ (∀ a, a ∈ item2.users ↔ a = athlete ∨ a ∈ item.users)
             ∧ (athlete ∈ item.users → item2 = item)
             ∧ (athlete ∈ item.users → item2.users.length = item.users.length)))
        ∧ (¬ 1000 * geo runner item.point ≤ 100 → item2 = item))
      items (check_and_collect_items geo items runner athlete) := by
  unfold check_and_collect_items
  rw [List.forall₂_map_right_iff, List.forall₂_same]
  intro item hmem
  constructor
  · intro hnear
    simp only [if_pos hnear]
    refine ⟨(usersAdd_mem item athlete athlete).mpr (Or.inl rfl),
      fun a => usersAdd_mem item athlete a, ?_, ?_⟩
    · exact usersAdd_of_mem item athlete
    · intro hin
      rw [usersAdd_of_mem item athlete hin]
  · intro hfar
    simp only [if_neg hfar]

/-- Catalog for the `collect_items_spec` witness: the first item is at the
runner point (distance 0 m), the second is 111 m away under `geoC7`. -/
def itemsC7 : List CollectibleItem :=
  [ { uid := 1, point := { lat := 10, lon := 10 }, users := [] },
    { uid := 2, point := { lat := 20, lon := 20 }, users := [5] } ]

/-- Geodesic stand-in for the witness: 0 km to the first item's point,
111/1000 km (111 m) to anything else. -/
def geoC7 : Point → Point → ℚ :=
  fun _ q => if q = { lat := 10, lon := 10 } then 0 else 111/1000

theorem collect_items_spec_witness :
    check_and_collect_items geoC7 itemsC7 { lat := 10, lon := 10 } 5
      = [ { uid := 1, point := { lat := 10, lon := 10 }, users := [5] },
          { uid := 2, point := { lat := 20, lon := 20 }, users := [5] } ]
    ∧ (∃ pr, List.Forall₂ pr itemsC7 (check_and_collect_items geoC7 itemsC7 { lat := 10, lon := 10 } 5)) := by
  constructor
  · show List.map _ _ = _
    have h1 : (1000 * geoC7 { lat := 10, lon := 10 } { lat := 10, lon := 10 } ≤ 100) := by
      norm_num [geoC7]
    have h2 : ¬ (1000 * geoC7 { lat := 10, lon := 10 } { lat := 20, lon := 20 } ≤ 100) := by
      norm_num [geoC7]
    simp only [itemsC7, List.map_cons, List.map_nil, if_pos h1, if_neg h2]
    rfl
  · exact ⟨_, collect_items_spec geoC7 itemsC7 { lat := 10, lon := 10 } 5⟩

theorem sortKey_eq_nil_iff (k : α → ℚ) (l : List α) : sortKey k l = [] ↔ l = [] := by
  constructor
  · intro h
    have hp := sortKey_perm k l
    rw [h] at hp
    exact hp.symm.eq_nil
  · intro h; subst h; rfl

theorem previous_position_none_iff (db : List Position) (p : Position) :
    previous_position db p = none
      ↔ ∀ r ∈ db, ¬ (r.runId = p.runId ∧ r.id < p.id) := by
  unfold previous_position
  rw [List.head?_eq_none_iff, sortKey_eq_nil_iff, List.filter_eq_nil_iff]
  simp

theorem previous_position_some (db : List Position) (p q : Position)
    (h : previous_position db p = some q) :
    q ∈ db ∧ q.runId = p.runId ∧ q.id < p.id
      ∧ ∀ r ∈ db, r.runId = p.runId → r.id < p.id → r.id ≤ q.id := by
  unfold previous_position at h
  cases hs : sortKey (fun x => -((x.id : ℚ)))
      (db.filter fun x => decide (x.runId = p.runId ∧ x.id < p.id)) with
  | nil => rw [hs] at h; cases h
  | cons h0 t =>
    rw [hs, List.head?_cons] at h
    have hq : h0 = q := Option.some.inj h
    subst hq
    have hqf : h0 ∈ db.filter fun x => decide (x.runId = p.runId ∧ x.id < p.id) := by
      rw [← mem_sortKey (fun x => -((x.id : ℚ)))]
      rw [hs]
      exact List.mem_cons_self h0 t
    have hqdb := List.mem_of_mem_filter hqf
    have hqprop : h0.runId = p.runId ∧ h0.id < p.id := by
      have := List.of_mem_filter hqf
      simpa using this
    refine ⟨hqdb, hqprop.1, hqprop.2, ?_⟩
    intro r hr hrrun hrlt
    have hrf : r ∈ db.filter fun x => decide (x.runId = p.runId ∧ x.id < p.id) :=
      List.mem_filter.mpr ⟨hr, by simp [hrrun, hrlt]⟩
    have hrs : r ∈ sortKey (fun x => -((x.id : ℚ)))
        (db.filter fun x => decide (x.runId = p.runId ∧ x.id < p.id)) :=
      (mem_sortKey _ _ r).mpr hrf
    rw [hs] at hrs
    have hpw := sortKey_pairwise (fun x => -((x.id : ℚ)))
      (db.filter fun x => decide (x.runId = p.runId ∧ x.id < p.id))
    rw [hs] at hpw
    have hkey := pairwise_key_head (fun x => -((x.id : ℚ))) h0 t hpw r hrs
    have hcast : (r.id : ℚ) ≤ (h0.id : ℚ) := by
      have := neg_le_neg_iff.mp hkey
      exact this
    exact_mod_cast hcast

theorem previous_position_eq_some (db : List Position) (p q : Position)
    (hnodup : (db.map fun x => x.id).Nodup)
    (hq : q ∈ db) (hrun : q.runId = p.runId) (hlt : q.id < p.id)
    (hmax : ∀ r ∈ db, r.runId = p.runId → r.id < p.id → r.id ≤ q.id) :
    previous_position db p = some q := by
  cases hh : previous_position db p with
  | none =>
    rw [previous_position_none_iff] at hh
    exact absurd ⟨hrun, hlt⟩ (hh q hq)
  | some h0 =>
    obtain ⟨hmem, hr, hl, hmax0⟩ := previous_position_some db p h0 hh
    have h1 : h0.id ≤ q.id := hmax h0 hmem hr hl
    have h2 : q.id ≤ h0.id := hmax0 q hq hrun hlt
    have : h0 = q := List.inj_on_of_nodup_map hnodup hmem hq (by omega)
    rw [this]

/-- Claim C5: the predecessor used by the Position Metrics Calculator is
exactly the highest-id position of the same run with id less than the new
one (insertion order, independent of timestamps); with no predecessor the
cumulative distance is set to `0.0`, otherwise to
`round(predecessor.distance + geodesic_km, 2)`. A predecessor is found
whenever one exists. -/
theorem position_distance_spec (geo : Point → Point → ℚ) (db : List Position)
    (p : Position) :
    (∀ q, previous_position db p = some q →
        q ∈ db ∧ q.runId = p.runId ∧ q.id < p.id
        ∧ (∀ r ∈ db, r.runId = p.runId → r.id < p.id → r.id ≤ q.id)
        ∧ (calculate_position_distance geo db p).distance
            = pyRound (q.distance + geo q.point p.point) 2)
    ∧ ((∃ q ∈ db, q.runId = p.runId ∧ q.id < p.id) →
        ∃ q, previous_position db p = some q)
    ∧ (previous_position db p = none →
        (calculate_position_distance geo db p).distance = 0) := by
  refine ⟨?_, ?_, ?_⟩
  · intro q hq
    obtain ⟨h1, h2, h3, h4⟩ := previous_position_some db p q hq
    refine ⟨h1, h2, h3, h4, ?_⟩
    unfold calculate_position_distance
    rw [hq]
  · intro ⟨q, hqdb, hrun, hlt⟩
    cases hh : previous_position db p with
    | none =>
      rw [previous_position_none_iff] at hh
      exact absurd ⟨hrun, hlt⟩ (hh q hqdb)
    | some q0 => exact ⟨q0, rfl⟩
  · intro hnone
    unfold calculate_position_distance
    rw [hnone]

/-- Positions for the C5/C6 witnesses: one run (id 1) with samples in
insertion order; the second sample is 100 s after the first, the third is
backdated 50 s before the second (out-of-order timestamp). -/
def pW1 : Position :=
  { id := 1, runId := 1, point := { lat := 0, lon := 0 },
    dateTime := 0, speed := 0, distance := 2 }

def pW2 : Position :=
  { id := 2, runId := 1, point := { lat := 1, lon := 1 },
    dateTime := 100, speed := 0, distance := 0 }

def pW3 : Position :=
  { id := 3, runId := 1, point := { lat := 2, lon := 2 },
    dateTime := 50, speed := 0, distance := 0 }

theorem position_distance_spec_witness :
    previous_position [pW1, pW2] pW2 = some pW1
    ∧ (calculate_position_distance (fun _ _ => 1) [pW1, pW2] pW2).distance = 3 := by
  have hprev : previous_position [pW1, pW2] pW2 = some pW1 := rfl
  have h := (position_distance_spec (fun _ _ => 1) [pW1, pW2] pW2).1 pW1 hprev
  refine ⟨hprev, ?_⟩
  rw [h.2.2.2.2]
  show pyRound (2 + 1 : ℚ) 2 = 3
  norm_num
  exact pyRound_eval 3 3 2 (by norm_num)

/-- Claim C6: for a new position with a predecessor, the speed is
`round(segment_km * 1000 / time_delta, 2)` (m/s) when
`time_delta = current.date_time - predecessor.date_time` is positive, and
`0.0` when `time_delta <= 0` (out-of-order timestamps included) — the
guarded branch never divides; with no predecessor the speed is `0.0`. The
predecessor is again the insertion-order one. -/
theorem position_speed_spec (geo : Point → Point → ℚ) (db : List Position)
    (p : Position) :
    (∀ q, previous_position db p = some q →
        q ∈ db ∧ q.runId = p.runId ∧ q.id < p.id
        ∧ (0 < p.dateTime - q.dateTime →
            (calculate_position_speed geo db p).speed
              = pyRound (geo q.point p.point * 1000 / (p.dateTime - q.dateTime)) 2)
        ∧ (p.dateTime - q.dateTime ≤ 0 →
            (calculate_position_speed geo db p).speed = 0))
    ∧ (previous_position db p = none →
        (calculate_position_speed geo db p).speed = 0) := by
  constructor
  · intro q hq
    obtain ⟨h1, h2, h3, _⟩ := previous_position_some db p q hq
    refine ⟨h1, h2, h3, ?_, ?_⟩
    · intro hpos
      unfold calculate_position_speed
      rw [hq]
      simp only [if_pos hpos]
    · intro hnonpos
      unfold calculate_position_speed
      rw [hq]
      simp only [if_neg (not_lt.mpr hnonpos)]
  · intro hnone
    unfold calculate_position_speed
    rw [hnone]

theorem position_speed_spec_witness :
    previous_position [pW1, pW2] pW2 = some pW1
    ∧ (calculate_position_speed (fun _ _ => 1) [pW1, pW2] pW2).speed = 10
    ∧ previous_position [pW1, pW2, pW3] pW3 = some pW2
    ∧ (calculate_position_speed (fun _ _ => 1) [pW1, pW2, pW3] pW3).speed = 0 := by
  have hprev2 : previous_position [pW1, pW2] pW2 = some pW1 := rfl
  have hprev3 : previous_position [pW1, pW2, pW3] pW3 = some pW2 := rfl
  have h2 := (position_speed_spec (fun _ _ => 1) [pW1, pW2] pW2).1 pW1 hprev2
  have h3 := (position_speed_spec (fun _ _ => 1) [pW1, pW2, pW3] pW3).1 pW2 hprev3
  refine ⟨hprev2, ?_, hprev3, ?_⟩
  · rw [h2.2.2.2.1 (by norm_num [pW1, pW2])]
    show pyRound (1 * 1000 / (pW2.dateTime - pW1.dateTime)) 2 = 10
    norm_num [pW1, pW2]
    show pyRound (10 : ℚ) 2 = 10
    exact pyRound_eval 10 10 2 (by norm_num)
  · exact h3.2.2.2.2 (by norm_num [pW2, pW3])

theorem stopMetrics_distance (geo : Point → Point → ℚ) (run : Run) (ps : List Position) :
    (stopMetrics geo run ps).1 = if ps.isEmpty then run.distance else chainSumP geo ps := by
  unfold stopMetrics
  split <;> rfl

theorem stopMetrics_time (geo : Point → Point → ℚ) (run : Run) (ps : List Position) :
    (stopMetrics geo run ps).2.1
      = if ps.isEmpty then ((run.run_time_seconds : ℚ)) else timeRangeView ps := by
  unfold stopMetrics
  split <;> rfl

theorem stopMetrics_speed (geo : Point → Point → ℚ) (run : Run) (ps : List Position) :
    (stopMetrics geo run ps).2.2
      = if ps.isEmpty then run.speed else pyRound (speedAvg ps) 2 := by
  unfold stopMetrics
  split <;> rfl

/-- Shape of a successful stop: the response literal, the persisted run,
the runs table and the challenge table of the post-state. -/
theorem stop_run_success_shape (geo : Point → Point → ℚ) (s : State) (run_id : ℕ)
    (run : Run) (hfind : findRun s run_id = some run)
    (hst : run.status = RunStatus.in_progress) :
    ∃ s2, stop_run geo s run_id
        = (s2, Except.ok
            { distance := (stopMetrics geo run (positionsOf s run_id)).1,
              run_time_seconds := (stopMetrics geo run (positionsOf s run_id)).2.1,
              average_speed := (stopMetrics geo run (positionsOf s run_id)).2.2 })
      ∧ findRun s2 run_id = some (stoppedRun run (stopMetrics geo run (positionsOf s run_id)))
      ∧ s2.runs = (saveRun s (stoppedRun run (stopMetrics geo run (positionsOf s run_id)))).runs
      ∧ s2.challenges = challengeAssign s.challenges run.athlete (finished_runs_count (saveRun s (stoppedRun run (stopMetrics geo run (positionsOf s run_id)))) run.athlete) (total_km (saveRun s (stoppedRun run (stopMetrics geo run (positionsOf s run_id)))) run.athlete) (stopMetrics geo run (positionsOf s run_id)).1 (stopMetrics geo run (positionsOf s run_id)).2.1 := by
  have heq := stop_run_in_progress_eq geo s run_id run hfind hst
  refine ⟨_, heq, ?_, rfl, rfl⟩
  have hid := findRun_id s run_id run hfind
  have hmem := findRun_mem s run_id run hfind
  show findRun (saveRun s _) run_id = _
  exact findRun_saveRun s _ run_id hid ⟨run, hmem, hid⟩

theorem sorted_head_key_eq_min (k : α → ℚ) (l : List α) (h0 : α) (t : List α)
    (hs : sortKey k l = h0 :: t) : k h0 = listMin (l.map k) := by
  have hperm := sortKey_perm k l
  rw [hs] at hperm
  have hpw := sortKey_pairwise k l
  rw [hs] at hpw
  have hle : ∀ x ∈ l, k h0 ≤ k x := fun x hx =>
    pairwise_key_head k h0 t hpw x (hperm.mem_iff.mpr hx)
  have hne : l.map k ≠ [] := by
    intro hmap
    rw [List.map_eq_nil_iff] at hmap
    subst hmap
    exact absurd hperm.eq_nil (by simp)
  apply le_antisymm
  · obtain ⟨x, hx, hxk⟩ := List.mem_map.mp (listMin_mem (l.map k) hne)
    rw [← hxk]
    exact hle x hx
  · exact listMin_le (l.map k) (k h0)
      (List.mem_map_of_mem k (hperm.mem_iff.mp (List.mem_cons_self h0 t)))

theorem sorted_getLastD_key_eq_max (k : α → ℚ) (d : α) (l : List α) (h0 : α)
    (t : List α) (hs : sortKey k l = h0 :: t) :
    k ((h0 :: t).getLastD d) = listMax (l.map k) := by
  have hperm := sortKey_perm k l
  rw [hs] at hperm
  have hpw := sortKey_pairwise k l
  rw [hs] at hpw
  have hge : ∀ x ∈ l, k x ≤ k ((h0 :: t).getLastD d) := fun x hx =>
    pairwise_key_getLastD k d (h0 :: t) hpw x (hperm.mem_iff.mpr hx)
  have hne : l.map k ≠ [] := by
    intro hmap
    rw [List.map_eq_nil_iff] at hmap
    subst hmap
    exact absurd hperm.eq_nil (by simp)
  apply le_antisymm
  · apply le_listMax (l.map k)
    apply List.mem_map_of_mem k
    exact hperm.mem_iff.mp (getLastD_mem (h0 :: t) d (by simp))
  · obtain ⟨x, hx, hxk⟩ := List.mem_map.mp (listMax_mem (l.map k) hne)
    rw [← hxk]
    exact hge x hx

theorem timeRangeView_eq_max_sub_min (ps : List Position) (hne : ps ≠ []) :
    timeRangeView ps
      = listMax (ps.map fun p => p.dateTime) - listMin (ps.map fun p => p.dateTime) := by
  unfold timeRangeView
  cases hs : sortKey (fun p => p.dateTime) ps with
  | nil => exact absurd ((sortKey_eq_nil_iff _ _).mp hs) hne
  | cons h0 t =>
    have hmin : h0.dateTime = listMin (ps.map fun p => p.dateTime) :=
      sorted_head_key_eq_min (fun p => p.dateTime) ps h0 t hs
    have hmax : ((h0 :: t).getLastD default).dateTime
        = listMax (ps.map fun p => p.dateTime) :=
      sorted_getLastD_key_eq_max (fun p => p.dateTime) default ps h0 t hs
    simp only [List.headD_cons]
    rw [hmax, hmin]

/-- Amended claim C2: the stop endpoint persists (and returns) the
UNROUNDED sum of geodesic segment distances between consecutive positions
of the run in insertion order — `StopRunAPIView.post` computes the sum
inline and never applies the 3-decimal rounding of the (unused)
`calculate_run_distance` service. A run with one position persists `0.0`
(the empty loop), and with zero positions the stored value (0.0 in the
normal lifecycle) is left untouched. -/
theorem stop_distance_is_unrounded_segment_sum (geo : Point → Point → ℚ)
    (s : State) (run_id : ℕ) (run : Run)
    (hfind : findRun s run_id = some run)
    (hst : run.status = RunStatus.in_progress) :
    ∃ s2 resp run2, stop_run geo s run_id = (s2, Except.ok resp)
      ∧ findRun s2 run_id = some run2
      ∧ resp.distance = run2.distance
      ∧ (positionsOf s run_id ≠ [] →
          run2.distance = chainSumP geo (positionsOf s run_id))
      ∧ (∀ p, positionsOf s run_id = [p] → run2.distance = 0)
      ∧ (positionsOf s run_id = [] → run2.distance = run.distance) := by
  obtain ⟨s2, heq, hfind2, _, _⟩ := stop_run_success_shape geo s run_id run hfind hst
  refine ⟨s2, _, _, heq, hfind2, rfl, ?_, ?_, ?_⟩
  · intro hne
    show (stopMetrics geo run (positionsOf s run_id)).1 = _
    rw [stopMetrics_distance, if_neg (by simpa using hne)]
  · intro p hp
    show (stopMetrics geo run (positionsOf s run_id)).1 = 0
    rw [stopMetrics_distance, hp]
    rfl
  · intro hemp
    show (stopMetrics geo run (positionsOf s run_id)).1 = run.distance
    rw [stopMetrics_distance, hemp]
    rfl

/-- An in-progress run with the model-default metric fields. -/
def exRunC : Run :=
  { id := 1, athlete := 1, status := RunStatus.in_progress,
    distance := 0, run_time_seconds := 0, speed := 0 }

/-- First position of run 1 (as the Position Metrics Calculator would
leave it: first sample, speed and distance 0). -/
def pA : Position :=
  { id := 1, runId := 1, point := { lat := 0, lon := 0 },
    dateTime := 0, speed := 0, distance := 0 }

/-- Second position of run 1, 100 s later; its incremental fields are
exactly what the calculator produces when the segment is 1 km:
`speed = round(1000/100, 2) = 10`, `distance = round(0 + 1, 2) = 1`. -/
def pB : Position :=
  { id := 2, runId := 1, point := { lat := 1, lon := 1 },
    dateTime := 100, speed := 10, distance := 1 }

/-- One in-progress run with two recorded positions. -/
def exStateC2 : State :=
  { runs := [exRunC], positions := [pA, pB], challenges := [] }

/-- Geodesic stand-in returning 0.001234 km for every segment. -/
def geoC2 : Point → Point → ℚ := fun _ _ => 1234/1000000

/-- Geodesic stand-in returning 1 km for every segment. -/
def geoOne : Point → Point → ℚ := fun _ _ => 1

theorem positionsOf_exStateC2 : positionsOf exStateC2 1 = [pA, pB] := rfl

/-- Claim C2 as stated is false: with two positions 0.001234 km apart the
stop endpoint persists and returns 0.001234, while rounding the sum to 3
decimals would give 0.001. -/
theorem stop_distance_rounding_counterexample :
    ∃ s2 resp, stop_run geoC2 exStateC2 1 = (s2, Except.ok resp)
      ∧ resp.distance = 1234/1000000
      ∧ (∀ run2, findRun s2 1 = some run2 → run2.distance = 1234/1000000)
      ∧ pyRound (1234/1000000 : ℚ) 3 = 1/1000
      ∧ (1234/1000000 : ℚ) ≠ 1/1000 := by
  obtain ⟨s2, heq, hfind2, _, _⟩ := stop_run_success_shape geoC2 exStateC2 1 exRunC rfl rfl
  have hdist : (stopMetrics geoC2 exRunC (positionsOf exStateC2 1)).1 = 1234/1000000 := by
    rw [stopMetrics_distance, positionsOf_exStateC2]
    norm_num [chainSumP, geoC2]
  refine ⟨s2, _, heq, hdist, ?_, ?_, by norm_num⟩
  · intro run2 h2
    rw [hfind2] at h2
    have h3 := Option.some.inj h2
    rw [← h3]
    exact hdist
  · have h1 : ((1234/1000000 : ℚ) * 10 ^ 3) = 1234/1000 := by norm_num
    unfold pyRound
    rw [h1, roundHalfEven_eq_of_lt_half (1234/1000) 1 (by norm_num) (by norm_num)]
    norm_num

theorem stop_distance_is_unrounded_segment_sum_witness :
    ∃ s2 resp run2, stop_run geoC2 exStateC2 1 = (s2, Except.ok resp)
      ∧ findRun s2 1 = some run2
      ∧ resp.distance = run2.distance
      ∧ run2.distance = 1234/1000000 := by
  obtain ⟨s2, resp, run2, heq, hf, hrd, hne, _, _⟩ :=
    stop_distance_is_unrounded_segment_sum geoC2 exStateC2 1 exRunC rfl rfl
  refine ⟨s2, resp, run2, heq, hf, hrd, ?_⟩
  rw [hne (by rw [positionsOf_exStateC2]; simp), positionsOf_exStateC2]
  norm_num [chainSumP, geoC2]

/-- Amended claim C1: the stop endpoint persists (and returns) as average
speed `round(mean of the per-position `speed` fields, 2)` — the
`Avg('speed')` aggregate of `StopRunAPIView.post` — NOT total distance
divided by elapsed time (the `calculate_average_speed` service computing
that formula is never invoked by the view); with zero positions the stored
value (0.0 in the normal lifecycle) is left untouched. -/
theorem stop_average_speed_is_mean_of_position_speeds (geo : Point → Point → ℚ)
    (s : State) (run_id : ℕ) (run : Run)
    (hfind : findRun s run_id = some run)
    (hst : run.status = RunStatus.in_progress) :
    ∃ s2 resp run2, stop_run geo s run_id = (s2, Except.ok resp)
      ∧ findRun s2 run_id = some run2
      ∧ resp.average_speed = run2.speed
      ∧ (positionsOf s run_id ≠ [] →
          run2.speed = pyRound (speedAvg (positionsOf s run_id)) 2)
      ∧ (positionsOf s run_id = [] → run2.speed = run.speed) := by
  obtain ⟨s2, heq, hfind2, _, _⟩ := stop_run_success_shape geo s run_id run hfind hst
  refine ⟨s2, _, _, heq, hfind2, rfl, ?_, ?_⟩
  · intro hne
    show (stopMetrics geo run (positionsOf s run_id)).2.2 = _
    rw [stopMetrics_speed, if_neg (by simpa using hne)]
  · intro hemp
    show (stopMetrics geo run (positionsOf s run_id)).2.2 = run.speed
    rw [stopMetrics_speed, hemp]
    rfl

/-- Claim C1 as stated is false: two positions 1 km apart and 100 s apart
whose incremental speed fields are 0 and 10 m/s (exactly what the
Position Metrics Calculator stores) make the stop endpoint persist and
return `round((0+10)/2, 2) = 5.0`, while the claimed formula — total
distance (1 km = 1000 m) over elapsed time (100 s), rounded to 2
decimals — gives 10.0; the persisted value depends on the per-position
speed fields rather than being computed independently of them. -/
theorem stop_average_speed_claim_counterexample :
    ∃ s2 resp, stop_run geoOne exStateC2 1 = (s2, Except.ok resp)
      ∧ resp.average_speed = 5
      ∧ (∀ run2, findRun s2 1 = some run2 → run2.speed = 5)
      ∧ resp.distance = 1
      ∧ resp.run_time_seconds = 100
      ∧ pyRound ((1 : ℚ) * 1000 / 100) 2 = 10
      ∧ (5 : ℚ) ≠ 10 := by
  obtain ⟨s2, heq, hfind2, _, _⟩ := stop_run_success_shape geoOne exStateC2 1 exRunC rfl rfl
  have hspd : (stopMetrics geoOne exRunC (positionsOf exStateC2 1)).2.2 = 5 := by
    rw [stopMetrics_speed, positionsOf_exStateC2]
    have havg : speedAvg [pA, pB] = 5 := by
      norm_num [speedAvg, listSum, pA, pB]
    rw [if_neg (by simp), havg]
    exact pyRound_eval 5 5 2 (by norm_num)
  have hdist : (stopMetrics geoOne exRunC (positionsOf exStateC2 1)).1 = 1 := by
    rw [stopMetrics_distance, positionsOf_exStateC2]
    norm_num [chainSumP, geoOne]
  have htime : (stopMetrics geoOne exRunC (positionsOf exStateC2 1)).2.1 = 100 := by
    rw [stopMetrics_time, positionsOf_exStateC2]
    rw [if_neg (by simp)]
    have ht : timeRangeView [pA, pB] = (100 : ℚ) - 0 := rfl
    rw [ht]
    norm_num
  refine ⟨s2, _, heq, hspd, ?_, hdist, htime, ?_, by norm_num⟩
  · intro run2 h2
    rw [hfind2] at h2
    have h3 := Option.some.inj h2
    rw [← h3]
    exact hspd
  · have h1 : ((1 : ℚ) * 1000 / 100) = ((10 : ℤ) : ℚ) := by norm_num
    rw [h1, pyRound_intCast]
    norm_num

theorem stop_average_speed_is_mean_of_position_speeds_witness :
    ∃ s2 resp run2, stop_run geoOne exStateC2 1 = (s2, Except.ok resp)
      ∧ findRun s2 1 = some run2
      ∧ resp.average_speed = run2.speed
      ∧ run2.speed = 5 := by
  obtain ⟨s2, resp, run2, heq, hf, hrs, hne, _⟩ :=
    stop_average_speed_is_mean_of_position_speeds geoOne exStateC2 1 exRunC rfl rfl
  refine ⟨s2, resp, run2, heq, hf, hrs, ?_⟩
  rw [hne (by rw [positionsOf_exStateC2]; simp), positionsOf_exStateC2]
  have havg : speedAvg [pA, pB] = 5 := by
    norm_num [speedAvg, listSum, pA, pB]
  rw [havg]
  exact pyRound_eval 5 5 2 (by norm_num)

/-- Claim C8: a successful stop persists `run_time_seconds` as
`max(date_time) - min(date_time)` over all positions of the run, truncated
to whole (integer) seconds by the `IntegerField` save — a range over the
whole set, not a sum of per-segment deltas, so out-of-order timestamps are
tolerated; with zero positions the stored value is kept, hence `0` for a
run with the model-default fields. -/
theorem stop_time_range_spec (geo : Point → Point → ℚ) (s : State)
    (run_id : ℕ) (run : Run)
    (hfind : findRun s run_id = some run)
    (hst : run.status = RunStatus.in_progress) :
    ∃ s2 resp run2, stop_run geo s run_id = (s2, Except.ok resp)
      ∧ findRun s2 run_id = some run2
      ∧ (positionsOf s run_id ≠ [] →
          run2.run_time_seconds
            = pyInt (listMax ((positionsOf s run_id).map fun p => p.dateTime)
                - listMin ((positionsOf s run_id).map fun p => p.dateTime)))
      ∧ (positionsOf s run_id = [] → run2.run_time_seconds = run.run_time_seconds)
      ∧ (positionsOf s run_id = [] → run.run_time_seconds = 0 →
          run2.run_time_seconds = 0) := by
  obtain ⟨s2, heq, hfind2, _, _⟩ := stop_run_success_shape geo s run_id run hfind hst
  have hemp_case : positionsOf s run_id = [] →
      (stoppedRun run (stopMetrics geo run (positionsOf s run_id))).run_time_seconds
        = run.run_time_seconds := by
    intro hemp
    show pyInt (stopMetrics geo run (positionsOf s run_id)).2.1 = run.run_time_seconds
    rw [stopMetrics_time, hemp]
    show pyInt ((run.run_time_seconds : ℚ)) = run.run_time_seconds
    exact pyInt_intCast run.run_time_seconds
  refine ⟨s2, _, _, heq, hfind2, ?_, hemp_case, ?_⟩
  · intro hne
    show pyInt (stopMetrics geo run (positionsOf s run_id)).2.1 = _
    rw [stopMetrics_time, if_neg (by simpa using hne),
      timeRangeView_eq_max_sub_min (positionsOf s run_id) hne]
  · intro hemp h0
    rw [hemp_case hemp, h0]

/-- One in-progress run whose three positions arrive with out-of-order
timestamps (0 s, 100 s, then a backdated 50 s). -/
def exStateC8 : State :=
  { runs := [exRunC], positions := [pA, pB, pW3], challenges := [] }

theorem stop_time_range_spec_witness :
    ∃ s2 resp run2, stop_run geoOne exStateC8 1 = (s2, Except.ok resp)
      ∧ findRun s2 1 = some run2
      ∧ run2.run_time_seconds = 100 := by
  obtain ⟨s2, resp, run2, heq, hf, hne, _, _⟩ :=
    stop_time_range_spec geoOne exStateC8 1 exRunC rfl rfl
  have hpos : positionsOf exStateC8 1 = [pA, pB, pW3] := rfl
  refine ⟨s2, resp, run2, heq, hf, ?_⟩
  rw [hne (by rw [hpos]; simp), hpos]
  have hmap : [pA, pB, pW3].map (fun p => p.dateTime) = [0, 100, 50] := rfl
  rw [hmap]
  have hmax : listMax [0, 100, 50] = 100 := by
    show List.foldl max (0 : ℚ) [100, 50] = 100
    norm_num [max_def]
  have hmin : listMin [0, 100, 50] = 0 := by
    show List.foldl min (0 : ℚ) [100, 50] = 0
    norm_num [min_def]
  rw [hmax, hmin]
  rw [show (100 : ℚ) - 0 = ((100 : ℤ) : ℚ) by norm_num, pyInt_intCast]

/-- Claim C4: after the Challenge Rule Engine runs at stop — with input
facts computed after the status flip (`finished_runs_count` and `total_km`
read back from the saved state, so they include the current run) plus this
run's distance and elapsed time — the challenge table equals the prior one
plus exactly the badges whose rule fires: "Сделай 10 Забегов!" when
`finished_runs_count >= 10`, "Пробеги 50 километров!" when
`total_km >= 50`, "2 километра за 10 минут!" when the run's distance is
at least 2 km and its time is in (0, 600] seconds; grants are
find-or-create, so a badge already held is never duplicated (its row count
is unchanged) and no prior grant is ever revoked (the old table is a
prefix of the new one). -/
theorem challenge_engine_spec (geo : Point → Point → ℚ) (s : State)
    (run_id : ℕ) (run : Run)
    (hfind : findRun s run_id = some run)
    (hst : run.status = RunStatus.in_progress) :
    ∃ s2 resp, stop_run geo s run_id = (s2, Except.ok resp)
      ∧ (∃ t, s2.challenges = s.challenges ++ t)
      ∧ (∀ c : Challenge, c ∈ s2.challenges ↔ c ∈ s.challenges
          ∨ (c = { full_name := badge_10_runs, athlete := run.athlete }
              ∧ 10 ≤ finished_runs_count s2 run.athlete)
          ∨ (c = { full_name := badge_50_km, athlete := run.athlete }
              ∧ 50 ≤ total_km s2 run.athlete)
          ∨ (c = { full_name := badge_2km_10min, athlete := run.athlete }
              ∧ 2 ≤ resp.distance ∧ 0 < resp.run_time_seconds
              ∧ resp.run_time_seconds ≤ 600))
      ∧ (∀ c ∈ s.challenges, s2.challenges.count c = s.challenges.count c)
      ∧ (∀ c, c ∉ s.challenges → s2.challenges.count c ≤ 1) := by
  obtain ⟨s2, heq, _, hruns, hch⟩ := stop_run_success_shape geo s run_id run hfind hst
  have hfc : finished_runs_count
      (saveRun s (stoppedRun run (stopMetrics geo run (positionsOf s run_id)))) run.athlete
      = finished_runs_count s2 run.athlete := by
    unfold finished_runs_count
    rw [hruns]
  have htkm : total_km
      (saveRun s (stoppedRun run (stopMetrics geo run (positionsOf s run_id)))) run.athlete
      = total_km s2 run.athlete := by
    unfold total_km
    rw [hruns]
  rw [hfc, htkm] at hch
  refine ⟨s2, _, heq, ?_, ?_, ?_, ?_⟩
  · rw [hch]
    exact challengeAssign_append s.challenges run.athlete _ _ _ _
  · intro c
    rw [hch]
    exact mem_challengeAssign s.challenges run.athlete _ _ _ _ c
  · intro c hc
    rw [hch]
    exact count_challengeAssign_of_mem s.challenges run.athlete _ _ _ _ c hc
  · intro c hc
    rw [hch]
    exact count_challengeAssign_le_one s.challenges run.athlete _ _ _ _ c hc

/-- A finished 6 km run of athlete 1 with database id `i`. -/
def finRun (i : ℕ) : Run :=
  { id := i, athlete := 1, status := RunStatus.finished,
    distance := 6, run_time_seconds := 3600, speed := 1 }

/-- Athlete 1 has nine finished 6 km runs and one in-progress run (id 1)
with the two positions `pA`, `pB`; stopping run 1 is their tenth finished
run and lifts their total to 55 km. -/
def exStateC4 : State :=
  { runs := [exRunC, finRun 2, finRun 3, finRun 4, finRun 5, finRun 6,
             finRun 7, finRun 8, finRun 9, finRun 10],
    positions := [pA, pB],
    challenges := [] }

theorem challenge_engine_spec_witness :
    ∃ s2 resp, stop_run geoOne exStateC4 1 = (s2, Except.ok resp)
      ∧ ({ full_name := badge_10_runs, athlete := 1 } : Challenge) ∈ s2.challenges
      ∧ ({ full_name := badge_50_km, athlete := 1 } : Challenge) ∈ s2.challenges
      ∧ ({ full_name := badge_2km_10min, athlete := 1 } : Challenge) ∉ s2.challenges := by
  obtain ⟨s2, resp, heq, happ, hmem, hcnt1, hcnt2⟩ :=
    challenge_engine_spec geoOne exStateC4 1 exRunC rfl rfl
  obtain ⟨s2x, heqx, hfindx, hrunsx, hchx⟩ :=
    stop_run_success_shape geoOne exStateC4 1 exRunC rfl rfl
  have hpair := heqx.symm.trans heq
  have hs2 : s2x = s2 := congrArg Prod.fst hpair
  have hresp : resp = { distance := (stopMetrics geoOne exRunC (positionsOf exStateC4 1)).1, run_time_seconds := (stopMetrics geoOne exRunC (positionsOf exStateC4 1)).2.1, average_speed := (stopMetrics geoOne exRunC (positionsOf exStateC4 1)).2.2 } := by
    have h2 := congrArg Prod.snd hpair
    simp only at h2
    exact (Except.ok.inj h2).symm
  have hdist : (stopMetrics geoOne exRunC (positionsOf exStateC4 1)).1 = 1 := by
    rw [stopMetrics_distance, show positionsOf exStateC4 1 = [pA, pB] from rfl]
    norm_num [chainSumP, geoOne]
  have hfc : finished_runs_count s2 1 = 10 := by
    rw [← hs2]
    unfold finished_runs_count
    rw [hrunsx]
    rfl
  have htkm : total_km s2 1 = 55 := by
    rw [← hs2]
    unfold total_km
    rw [hrunsx]
    have hlist : listSum ((((saveRun exStateC4 (stoppedRun exRunC (stopMetrics geoOne exRunC (positionsOf exStateC4 1)))).runs).filter fun r => decide (r.athlete = 1 ∧ r.status = RunStatus.finished)).map fun r => r.distance)
        = (stopMetrics geoOne exRunC (positionsOf exStateC4 1)).1
          + (6 + (6 + (6 + (6 + (6 + (6 + (6 + (6 + (6 + 0))))))))) := rfl
    rw [hlist, hdist]
    norm_num
  refine ⟨s2, resp, heq, ?_, ?_, ?_⟩
  · refine (hmem _).mpr (Or.inr (Or.inl ⟨rfl, ?_⟩))
    show 10 ≤ finished_runs_count s2 1
    omega
  · refine (hmem _).mpr (Or.inr (Or.inr (Or.inl ⟨rfl, ?_⟩)))
    show (50 : ℚ) ≤ total_km s2 1
    linarith
  · intro hbad
    rcases (hmem _).mp hbad with h | ⟨hc, _⟩ | ⟨hc, _⟩ | ⟨_, hd, _⟩
    · simp [exStateC4] at h
    · exact absurd (congrArg Challenge.full_name hc)
        (by simp [badge_2km_10min, badge_10_runs])
    · exact absurd (congrArg Challenge.full_name hc)
        (by simp [badge_2km_10min, badge_50_km])
    · rw [hresp] at hd
      simp only at hd
      rw [hdist] at hd
      norm_num at hd

theorem map_update_id (t : List Run) (rid : ℕ) (run1 : Run)
    (h : ∀ r ∈ t, ¬ r.id = rid) :
    t.map (fun r => if r.id = rid then run1 else r) = t := by
  induction t with
  | nil => rfl
  | cons x xs ih =>
    simp only [List.map_cons]
    rw [if_neg (h x (List.mem_cons_self x xs)),
      ih fun r hr => h r (List.mem_cons_of_mem x hr)]

/-- Flipping the (unique) run found by id from a non-finished status to a
finished one with the same athlete grows that athlete's finished-run count
by exactly one. -/
theorem filter_length_map_update (l : List Run) (rid : ℕ) (run run1 : Run) (a : ℕ)
    (hnodup : (l.map fun r => r.id).Nodup)
    (hfind : l.find? (fun r => decide (r.id = rid)) = some run)
    (hold : ¬ (run.athlete = a ∧ run.status = RunStatus.finished))
    (hnew : run1.athlete = a ∧ run1.status = RunStatus.finished) :
    ((l.map fun r => if r.id = rid then run1 else r).filter
        fun r => decide (r.athlete = a ∧ r.status = RunStatus.finished)).length
      = ((l.filter fun r => decide (r.athlete = a ∧ r.status = RunStatus.finished)).length) + 1 := by
  induction l with
  | nil => cases hfind
  | cons x xs ih =>
    rw [List.map_cons] at hnodup
    rw [List.nodup_cons] at hnodup
    by_cases hx : x.id = rid
    · rw [List.find?_cons_of_pos _ (by simp [hx])] at hfind
      have hxr : x = run := Option.some.inj hfind
      have hxt : ∀ r ∈ xs, ¬ r.id = rid := by
        intro r hr hreq
        apply hnodup.1
        rw [hx, ← hreq]
        exact List.mem_map_of_mem (fun r => r.id) hr
      rw [List.map_cons, if_pos hx, map_update_id xs rid run1 hxt]
      rw [List.filter_cons, List.filter_cons]
      rw [if_pos (by simp [hnew.1, hnew.2]), if_neg (by rw [hxr]; simpa using hold)]
      simp
    · rw [List.find?_cons_of_neg _ (by simp [hx])] at hfind
      rw [List.map_cons, if_neg hx]
      rw [List.filter_cons, List.filter_cons]
      have htail := ih hnodup.2 hfind
      simp only [decide_eq_true_eq]
      by_cases hxf : x.athlete = a ∧ x.status = RunStatus.finished
      · rw [if_pos hxf, if_pos hxf]
        simp only [List.length_cons]
        omega
      · rw [if_neg hxf, if_neg hxf]
        exact htail

/-- Claim C10: stopping an in-progress run with zero recorded positions
succeeds (no error): the metrics block is skipped, so the run is persisted
finished with the model-default `distance = 0.0`, `run_time_seconds = 0`,
`speed = 0.0`, the response echoes those zeros, the empty finished run
still increments the athlete's finished-run count by one, and that count
feeds the "Сделай 10 Забегов!" rule, which grants the badge whenever the
new count reaches 10. -/
theorem stop_empty_run_spec (geo : Point → Point → ℚ) (s : State)
    (run_id : ℕ) (run : Run)
    (hfind : findRun s run_id = some run)
    (hst : run.status = RunStatus.in_progress)
    (hids : (s.runs.map fun r => r.id).Nodup)
    (hempty : positionsOf s run_id = [])
    (hd : run.distance = 0) (ht : run.run_time_seconds = 0) (hsp : run.speed = 0) :
    ∃ s2 resp, stop_run geo s run_id = (s2, Except.ok resp)
      ∧ resp = { distance := 0, run_time_seconds := 0, average_speed := 0 }
      ∧ findRun s2 run_id = some { run with status := RunStatus.finished }
      ∧ finished_runs_count s2 run.athlete = finished_runs_count s run.athlete + 1
      ∧ (10 ≤ finished_runs_count s2 run.athlete →
          ({ full_name := badge_10_runs, athlete := run.athlete } : Challenge)
            ∈ s2.challenges) := by
  obtain ⟨s2, heq, hfind2, hruns, hch⟩ := stop_run_success_shape geo s run_id run hfind hst
  have hid := findRun_id s run_id run hfind
  have hm0 : stopMetrics geo run (positionsOf s run_id) = (0, (0 : ℚ), 0) := by
    unfold stopMetrics
    rw [hempty]
    show (run.distance, ((run.run_time_seconds : ℚ)), run.speed) = _
    rw [hd, ht, hsp]
    norm_num
  have hpy : pyInt (0 : ℚ) = 0 := by
    rw [show ((0 : ℚ)) = ((0 : ℤ) : ℚ) by norm_num, pyInt_intCast]
  have hstop : stoppedRun run (stopMetrics geo run (positionsOf s run_id))
      = { run with status := RunStatus.finished } := by
    rw [hm0]
    unfold stoppedRun
    simp [hpy, hd, ht, hsp]
  have hcount : finished_runs_count s2 run.athlete
      = finished_runs_count s run.athlete + 1 := by
    unfold finished_runs_count
    rw [hruns]
    unfold saveRun
    simp only
    apply filter_length_map_update s.runs _ run _ run.athlete hids
    · show s.runs.find? (fun r => decide (r.id = run.id)) = some run
      rw [hid]
      exact hfind
    · rw [hst]
      simp
    · exact ⟨rfl, rfl⟩
  refine ⟨s2, _, heq, ?_, ?_, hcount, ?_⟩
  · rw [hm0]
  · rw [hstop] at hfind2
    exact hfind2
  · intro hten
    have hfc : finished_runs_count
        (saveRun s (stoppedRun run (stopMetrics geo run (positionsOf s run_id)))) run.athlete
        = finished_runs_count s2 run.athlete := by
      unfold finished_runs_count
      rw [hruns]
    rw [hch]
    refine (mem_challengeAssign _ _ _ _ _ _ _).mpr (Or.inr (Or.inl ⟨rfl, ?_⟩))
    rw [hfc]
    exact hten

/-- Athlete 1 has nine finished runs and one in-progress run (id 1) with
no recorded positions at all. -/
def exStateC10 : State :=
  { runs := [exRunC, finRun 2, finRun 3, finRun 4, finRun 5, finRun 6,
             finRun 7, finRun 8, finRun 9, finRun 10],
    positions := [],
    challenges := [] }

theorem stop_empty_run_spec_witness :
    ∃ s2 resp, stop_run geoOne exStateC10 1 = (s2, Except.ok resp)
      ∧ resp = { distance := 0, run_time_seconds := 0, average_speed := 0 }
      ∧ finished_runs_count s2 1 = 10
      ∧ ({ full_name := badge_10_runs, athlete := 1 } : Challenge) ∈ s2.challenges := by
  obtain ⟨s2, resp, heq, hresp, hfind2, hcount, hbadge⟩ :=
    stop_empty_run_spec geoOne exStateC10 1 exRunC rfl rfl (by decide) rfl rfl rfl rfl
  have h9 : finished_runs_count exStateC10 1 = 9 := rfl
  have hc2 : finished_runs_count s2 1 = finished_runs_count exStateC10 1 + 1 := hcount
  have h10 : finished_runs_count s2 1 = 10 := by omega
  refine ⟨s2, resp, heq, hresp, h10, hbadge ?_⟩
  show (10 : ℕ) ≤ finished_runs_count s2 1
  omega

theorem pairwise_id_nodup (ps : List Position)
    (hasc : ps.Pairwise fun p q => p.id < q.id) :
    (ps.map fun p => p.id).Nodup := by
  exact List.Pairwise.map (fun p : Position => p.id)
    (fun a b hab => Nat.ne_of_lt hab) hasc

/-- In a run history with strictly increasing ids (all in the same run),
the predecessor lookup for the `(i+1)`-th position returns the `i`-th. -/
theorem previous_position_adjacent (ps : List Position) (rid : ℕ)
    (hrun : ∀ p ∈ ps, p.runId = rid)
    (hasc : ps.Pairwise fun p q => p.id < q.id)
    (i : ℕ) (hi1 : i + 1 < ps.length) (hi0 : i < ps.length) :
    previous_position ps (ps.get ⟨i + 1, hi1⟩) = some (ps.get ⟨i, hi0⟩) := by
  apply previous_position_eq_some ps _ _ (pairwise_id_nodup ps hasc)
  · exact ps.get_mem _ _
  · rw [hrun _ (ps.get_mem _ _), hrun _ (ps.get_mem _ _)]
  · exact List.pairwise_iff_get.mp hasc ⟨i, hi0⟩ ⟨i + 1, hi1⟩ (by simp)
  · intro r hr hrrun hrlt
    obtain ⟨⟨j, hj⟩, hget⟩ := List.mem_iff_get.mp hr
    rcases Nat.lt_trichotomy j (i + 1) with hlt | heq | hgt
    · rcases Nat.lt_or_ge j i with hji | hji
      · have hij := List.pairwise_iff_get.mp hasc ⟨j, hj⟩ ⟨i, hi0⟩ (by simpa using hji)
        rw [hget] at hij
        omega
      · have hj_eq : j = i := by omega
        subst hj_eq
        rw [← hget]
    · subst heq
      rw [← hget] at hrlt
      exact absurd hrlt (lt_irrefl _)
    · have hij := List.pairwise_iff_get.mp hasc ⟨i + 1, hi1⟩ ⟨j, hj⟩ (by simpa using hgt)
      rw [hget] at hij
      omega

/-- The first position of such a history has no predecessor. -/
theorem previous_position_head_none (p0 : Position) (t : List Position)
    (hasc : (p0 :: t).Pairwise fun p q => p.id < q.id) :
    previous_position (p0 :: t) p0 = none := by
  rw [previous_position_none_iff]
  rintro r hr ⟨_, hlt⟩
  rcases List.mem_cons.mp hr with rfl | hrt
  · omega
  · have h1 := (List.pairwise_cons.mp hasc).1 r hrt
    omega

/-- Error accumulation of the per-position 2-decimal rounding along a run:
if each position's stored distance is the rounded sum of its
predecessor's stored distance and the connecting segment, the last stored
distance is within `n * 0.005` of the exact segment sum. -/
theorem chain_dist_error (geo : Point → Point → ℚ) :
    ∀ (t : List Position) (p : Position),
      List.Chain' (fun p q => q.distance = pyRound (p.distance + geo p.point q.point) 2)
        (p :: t) →
      |((p :: t).getLastD default).distance - (p.distance + chainSumP geo (p :: t))|
        ≤ (t.length : ℚ) * (1/200) := by
  intro t
  induction t with
  | nil =>
    intro p _
    simp [chainSumP]
  | cons q t ih =>
    intro p hch
    rw [List.chain'_cons] at hch
    obtain ⟨hpq, hch2⟩ := hch
    have hIH := ih q hch2
    rw [List.getLastD_cons] at hIH
    have hstep : |q.distance - (p.distance + geo p.point q.point)| ≤ 1/200 := by
      rw [hpq]
      have h2 := abs_pyRound_sub_le (p.distance + geo p.point q.point) 2
      norm_num at h2
      exact h2
    rw [List.getLastD_cons, List.getLastD_cons]
    have hsum : chainSumP geo (p :: q :: t)
        = geo p.point q.point + chainSumP geo (q :: t) := rfl
    rw [hsum]
    have hsplit : (t.getLastD q).distance
          - (p.distance + (geo p.point q.point + chainSumP geo (q :: t)))
        = ((t.getLastD q).distance - (q.distance + chainSumP geo (q :: t)))
          + (q.distance - (p.distance + geo p.point q.point)) := by
      ring
    rw [hsplit]
    have htri := abs_add
      ((t.getLastD q).distance - (q.distance + chainSumP geo (q :: t)))
      (q.distance - (p.distance + geo p.point q.point))
    have hlen : ((q :: t).length : ℚ) = (t.length : ℚ) + 1 := by
      push_cast [List.length_cons]
      ring
    rw [hlen]
    calc |((t.getLastD q).distance - (q.distance + chainSumP geo (q :: t)))
          + (q.distance - (p.distance + geo p.point q.point))|
        ≤ |(t.getLastD q).distance - (q.distance + chainSumP geo (q :: t))|
          + |q.distance - (p.distance + geo p.point q.point)| := htri
      _ ≤ (t.length : ℚ) * (1/200) + 1/200 := add_le_add hIH hstep
      _ = ((t.length : ℚ) + 1) * (1/200) := by ring

/-- Claim C9: for a run history with strictly increasing ids and strictly
increasing timestamps, all in one run, whose stored cumulative distances
are exactly what the Position Metrics Calculator wrote at creation (each
position's `distance` is a fixed point of `calculate_position_distance`
over the history — with ascending ids the predecessor and its stored
distance are the same at creation time and afterwards, absent concurrent
writes), the Run Aggregate Calculator's `calculate_run_distance` agrees
with the last position's cumulative distance within the accumulated
rounding tolerance: half of the final 3-decimal rounding step plus
`0.005` per 2-decimal incremental rounding step. -/
theorem aggregate_incremental_consistency (geo : Point → Point → ℚ)
    (ps : List Position) (rid : ℕ)
    (hne : ps ≠ [])
    (hrun : ∀ p ∈ ps, p.runId = rid)
    (hasc : ps.Pairwise fun p q => p.id < q.id)
    (hts : ps.Pairwise fun p q => p.dateTime < q.dateTime)
    (hproc : ∀ p ∈ ps, (calculate_position_distance geo ps p).distance = p.distance) :
    |calculate_run_distance geo ps - (ps.getLastD default).distance|
      ≤ ((ps.length : ℚ) - 1) * (1/200) + 1/2000 := by
  have hsort : sortKey (fun p => ((p.id : ℚ))) ps = ps := by
    apply sortKey_eq_self
    apply hasc.imp
    intro a b hab
    exact_mod_cast hab
  have hrd : calculate_run_distance geo ps = pyRound (chainSumP geo ps) 3 := by
    unfold calculate_run_distance
    rw [hsort]
  rcases hps : ps with _ | ⟨p0, t⟩
  · exact absurd hps hne
  · subst hps
    have hchain : List.Chain'
        (fun p q => q.distance = pyRound (p.distance + geo p.point q.point) 2)
        (p0 :: t) := by
      rw [List.chain'_iff_get]
      intro i hi
      have hlen : i + 1 < (p0 :: t).length := by
        simp only [List.length_cons] at hi ⊢
        omega
      have hlen0 : i < (p0 :: t).length := by omega
      have hadj := previous_position_adjacent (p0 :: t) rid hrun hasc i hlen hlen0
      have hp := hproc ((p0 :: t).get ⟨i + 1, hlen⟩) (List.get_mem _ _ _)
      simp only [calculate_position_distance, hadj] at hp
      exact hp.symm
    have hd0 : p0.distance = 0 := by
      have hp0 := hproc p0 (List.mem_cons_self p0 t)
      simp only [calculate_position_distance,
        previous_position_head_none p0 t hasc] at hp0
      exact hp0.symm
    have herr := chain_dist_error geo t p0 hchain
    rw [hd0, zero_add] at herr
    have hr3 := abs_pyRound_sub_le (chainSumP geo (p0 :: t)) 3
    norm_num at hr3
    rw [hrd]
    have htri := abs_sub_le (pyRound (chainSumP geo (p0 :: t)) 3)
      (chainSumP geo (p0 :: t)) (((p0 :: t).getLastD default).distance)
    have hcomm : |chainSumP geo (p0 :: t) - ((p0 :: t).getLastD default).distance|
        = |((p0 :: t).getLastD default).distance - chainSumP geo (p0 :: t)| :=
      abs_sub_comm _ _
    have hlen2 : (((p0 :: t).length : ℚ)) - 1 = (t.length : ℚ) := by
      push_cast [List.length_cons]
      ring
    rw [hlen2]
    rw [hcomm] at htri
    linarith

theorem aggregate_incremental_consistency_witness :
    (∀ p ∈ [pA, pB],
        (calculate_position_distance geoOne [pA, pB] p).distance = p.distance)
    ∧ |calculate_run_distance geoOne [pA, pB] - (([pA, pB].getLastD default)).distance|
        ≤ ((([pA, pB].length : ℚ)) - 1) * (1/200) + 1/2000 := by
  have hproc : ∀ p ∈ [pA, pB],
      (calculate_position_distance geoOne [pA, pB] p).distance = p.distance := by
    intro p hp
    rcases List.mem_cons.mp hp with rfl | hp2
    · have hnone : previous_position [pA, pB] pA = none := rfl
      simp only [calculate_position_distance, hnone]
      rfl
    · rcases List.mem_cons.mp hp2 with rfl | h3
      · have hprev : previous_position [pA, pB] pB = some pA := rfl
        simp only [calculate_position_distance, hprev]
        show pyRound (pA.distance + geoOne pA.point pB.point) 2 = pB.distance
        show pyRound ((0 : ℚ) + 1) 2 = (1 : ℚ)
        norm_num
        exact pyRound_eval 1 1 2 (by norm_num)
      · exact absurd h3 (List.not_mem_nil p)
  refine ⟨hproc, aggregate_incremental_consistency geoOne [pA, pB] 1 (by simp)
    ?_ ?_ ?_ hproc⟩
  · intro p hp
    fin_cases hp <;> rfl
  · norm_num [pA, pB, List.pairwise_cons]
  · norm_num [pA, pB, List.pairwise_cons]
